import Mathlib

/-!
Shallow embedding of the geocoding pipeline of the NuevoImpulsoMap repository
(src/app.js, with the worker-pool variant in src/unnamed/part_001).

Conventions of the embedding:
* JS strings are Lean `String`; character-level operations (trim, lowercase,
  first-comma replacement, parseFloat) are modelled on `List Char`.
  `Char.toLower` is ASCII-only, which matches every string the claims use.
* JS numbers are exact rationals `ℚ`.  `parseFloat` is modelled as
  `Option ℚ` where `none` stands for a non-finite result (NaN or Infinity);
  the only consumer of a parse result is `Number.isFinite`, which is `false`
  exactly on those values, so the collapse is observationally faithful.
* `localStorage` is an insertion-ordered association list; `setItem` updates
  in place or appends, as JS key enumeration order does.
* The network is an oracle `provider : String → ProviderResult`; an HTTP
  failure (`!res.ok` followed by `throw`) is an `Except.error`.
* DOM rendering (markers, counters) is modelled by the data that reaches it:
  the list of marker coordinates, the geocoded counter and the sequence of
  `setProgress` invocations.
-/

namespace NIMap

/-- A geographic coordinate, as built on line 127 of app.js. -/
structure Coord where
  lat : ℚ
  lon : ℚ
deriving DecidableEq, Repr

/-- One CSV row: named fields in original order (PapaParse header mode).
JS property access `row[k]` is association-list lookup; a missing column is
`none` (undefined). -/
abbrev Row := List (String × String)

/-- `row[k]`, `undefined` when the column is absent. -/
def rowGet : Row → String → Option String
  | [], _ => none
  | (k1, v) :: rest, k => if k1 = k then some v else rowGet rest k

/-- `row[a] ?? row[b] ?? ... ?? ''` : first present value (even an empty
string is present; `??` only skips null/undefined). -/
def pickField (row : Row) (keys : List String) : String :=
  match keys.findSome? (fun k => rowGet row k) with
  | some v => v
  | none => ""

/-- JS `String.prototype.trim` on the character list (ASCII whitespace). -/
def trimList (cs : List Char) : List Char :=
  ((cs.dropWhile Char.isWhitespace).reverse.dropWhile Char.isWhitespace).reverse

/-- JS `s.replace(',', '.')`: only the first comma is replaced. -/
def replaceFirstComma : List Char → List Char
  | [] => []
  | c :: cs => if c = ',' then '.' :: cs else c :: replaceFirstComma cs

/-- Longest leading run of decimal digits. -/
def spanDigits : List Char → List Char × List Char
  | [] => ([], [])
  | c :: cs =>
    if c.isDigit then (c :: (spanDigits cs).1, (spanDigits cs).2) else ([], c :: cs)

/-- Numeric value of a digit string. -/
def digitsVal (ds : List Char) : ℕ :=
  ds.foldl (fun a c => 10 * a + (c.toNat - '0'.toNat)) 0

/-- The exponent part of `parseFloat`: consumed only when an exponent marker
with at least one digit follows, otherwise the mantissa stands (JS
backtracks on an incomplete exponent). -/
def parseExponent (m : ℚ) (cs : List Char) : ℚ :=
  if cs.head? = some 'e' ∨ cs.head? = some 'E' then
    if cs.tail.head? = some '-' then
      if (spanDigits cs.tail.tail).1 = [] then m
      else m / (10 ^ digitsVal (spanDigits cs.tail.tail).1)
    else if cs.tail.head? = some '+' then
      if (spanDigits cs.tail.tail).1 = [] then m
      else m * (10 ^ digitsVal (spanDigits cs.tail.tail).1)
    else
      if (spanDigits cs.tail).1 = [] then m
      else m * (10 ^ digitsVal (spanDigits cs.tail).1)
  else m

/-- The unsigned mantissa of `parseFloat`: `digits [. digits]` or `. digits`,
longest prefix; `none` when not even one digit is found (NaN). -/
def parseMantissa (cs : List Char) : Option (ℚ × List Char) :=
  let ip := (spanDigits cs).1
  let r1 := (spanDigits cs).2
  if r1.head? = some '.' then
    let fp := (spanDigits r1.tail).1
    let r3 := (spanDigits r1.tail).2
    if ip.isEmpty && fp.isEmpty then none
    else some ((digitsVal ip : ℚ) + (digitsVal fp : ℚ) / (10 ^ fp.length), r3)
  else if ip.isEmpty then none else some ((digitsVal ip : ℚ), r1)

/-- The optional leading sign of a numeral: whether it is negative, and the
remaining characters. -/
def jsSignSplit (cs : List Char) : Bool × List Char :=
  if cs.head? = some '-' then (true, cs.tail)
  else if cs.head? = some '+' then (false, cs.tail)
  else (false, cs)

/-- JS `parseFloat` on a whitespace-free character list: optional sign, then
mantissa and optional exponent; trailing garbage is ignored; `none` is a
non-finite result. -/
def jsParseFloat (cs : List Char) : Option ℚ :=
  match parseMantissa (jsSignSplit cs).2 with
  | none => none
  | some (m, rest) =>
    if (jsSignSplit cs).1 then some (-(parseExponent m rest))
    else some (parseExponent m rest)

/-- app.js lines 45-49: `parseNumberFlexible` — trim, replace the first comma
by a dot, then `parseFloat`. -/
def parseNumberFlexible (v : String) : Option ℚ :=
  jsParseFloat (replaceFirstComma (trimList v.data))

/-- app.js line 51: the latitude field aliases, in priority order. -/
def latKeys : List String :=
  ["Lat", "lat", "LAT", "Latitude", "latitude", "Latitud", "latitud", "Y", "y"]

/-- app.js line 52: the longitude field aliases, in priority order. -/
def lonKeys : List String :=
  ["Lon", "lon", "LON", "Lng", "lng", "Long", "long", "Longitude", "longitude",
   "Longitud", "longitud", "X", "x"]

/-- The value of the first alias that is present with a non-empty value
(the loop on app.js lines 54-55 breaks on the first such key). -/
def firstAxisVal (keys : List String) (row : Row) : Option String :=
  keys.findSome? (fun k =>
    match rowGet row k with
    | some v => if v = "" then none else some v
    | none => none)

/-- app.js lines 50-58: `getCoordsFromRow` — both axes must parse to finite
numbers (first alias match wins per axis), otherwise `null`. -/
def getCoordsFromRow (row : Row) : Option Coord :=
  match (firstAxisVal latKeys row).bind parseNumberFlexible,
        (firstAxisVal lonKeys row).bind parseNumberFlexible with
  | some a, some b => some ⟨a, b⟩
  | _, _ => none

/-- ASCII lower-casing of a string, as `String.prototype.toLowerCase` does on
the inputs this program uses. -/
def jsToLower (s : String) : String :=
  ⟨s.data.map Char.toLower⟩

/-- String-level trim. -/
def jsTrim (s : String) : String :=
  ⟨trimList s.data⟩

/-- app.js line 43: `keyFor` — storage key: the fixed prefix plus the
lower-cased (NOT trimmed) address. -/
def keyFor (address : String) : String :=
  "geo:" ++ jsToLower address

/-- app.js line 44: `normalizeAddressForKey` — lower-case then trim. -/
def normalizeAddressForKey (address : String) : String :=
  jsTrim (jsToLower address)

/-- A persisted value: geocode entries hold a coordinate (stored as JSON),
UI-preference entries hold plain strings.  JSON round-tripping is assumed
faithful. -/
inductive LSVal where
  | coordV (c : Coord)
  | strV (s : String)
deriving DecidableEq, Repr

/-- `localStorage` contents, in key-enumeration order. -/
abbrev LStore := List (String × LSVal)

/-- `localStorage.getItem`. -/
def lsGet : LStore → String → Option LSVal
  | [], _ => none
  | (k1, v) :: rest, k => if k1 = k then some v else lsGet rest k

/-- `localStorage.setItem`: overwrite in place, or append a fresh key. -/
def lsSet : LStore → String → LSVal → LStore
  | [], k, v => [(k, v)]
  | (k1, w) :: rest, k, v =>
    if k1 = k then (k, v) :: rest else (k1, w) :: lsSet rest k v

/-- JS `String.prototype.startsWith`, on the character lists. -/
def jsStartsWith (s pre : String) : Bool :=
  pre.data.isPrefixOf s.data

/-- app.js lines 405-408: the clear-cache button removes every key starting
with `geo:` OR `ui:`. -/
def clearCacheClick (ls : LStore) : LStore :=
  ls.filter (fun p => !(jsStartsWith p.1 "geo:" || jsStartsWith p.1 "ui:"))

/-- The outcome of one provider request: a first candidate, an empty
candidate array, or a non-2xx HTTP status. -/
inductive ProviderResult where
  | ok (c : Coord)
  | noMatch
  | httpError
deriving DecidableEq, Repr

/-- The ambient collaborators of `geocodeAddress`: the in-memory preload
table `preloadedGeocoded` and the network. -/
structure GeoEnv where
  preloaded : List (String × Coord)
  provider : String → ProviderResult

/-- The mutable state `geocodeAddress` touches: the durable store plus the
trace of queries actually sent to the network. -/
structure GeoState where
  ls : LStore
  fetches : List String
deriving DecidableEq, Repr

/-- app.js lines 90-130: `geocodeAddress` — durable cache, then preload table
(persisting on a preload hit), then rate-limited fetch; a found candidate is
written back, a zero-candidate response is returned as `none` uncached, a
non-ok response throws.  (The timing of the rate-limit wait is modelled
separately; it does not affect the data flow embedded here.  A `geo:` key
only ever holds a coordinate, so the `strV` cache-hit branch is
unreachable for the modelled operations.) -/
def geocodeAddress (env : GeoEnv) (q : String) (st : GeoState) :
    Except Unit (Option Coord) × GeoState :=
  match lsGet st.ls (keyFor q) with
  | some (.coordV c) => (.ok (some c), st)
  | some (.strV _) => (.ok none, st)
  | none =>
    match (env.preloaded.find? (fun p => p.1 = normalizeAddressForKey q)).map (fun p => p.2) with
    | some c => (.ok (some c), { st with ls := lsSet st.ls (keyFor q) (.coordV c) })
    | none =>
      let st1 : GeoState := { st with fetches := st.fetches ++ [q] }
      match env.provider q with
      | .httpError => (.error (), st1)
      | .noMatch => (.ok none, st1)
      | .ok c => (.ok (some c), { st1 with ls := lsSet st1.ls (keyFor q) (.coordV c) })

/-- A row after the pipeline has attached (or failed to attach) `_geo`. -/
structure RowOut where
  fields : Row
  geo : Option Coord
deriving DecidableEq, Repr

/-- The shared UI-visible pipeline state: the resolver state, the marker
coordinates added to the cluster group, and the `(done, total)` arguments of
every `setProgress` call, in order. -/
structure PipeState where
  geo : GeoState
  markers : List Coord
  progress : List (ℕ × ℕ)
deriving DecidableEq, Repr

/-- The accumulator of the `processData` loop (app.js line 178 locals plus
the shared state and the `allData` rows with attached `_geo`). -/
structure PdAcc where
  done : ℕ
  geocoded : ℕ
  failed : List String
  ps : PipeState
  outs : List RowOut
deriving DecidableEq, Repr

/-- The field aliases of the address column (`?? ` chains in app.js). -/
def direccionKeys : List String := ["Direccion", "Dirección", "direccion"]

/-- The field aliases of the neighborhood column. -/
def barrioKeys : List String := ["Barrio", "barrio"]

/-- The trimmed address text of a row, as both branches of `processData`
compute it. -/
def direccionOf (r : Row) : String := jsTrim (pickField r direccionKeys)

/-- The per-row resolution of app.js lines 181-216: native coordinates seed
the cache (unconditionally) and are accepted; otherwise a non-empty address
is sent to `geocodeAddress`; a `null` result or a thrown error records the
query in the failure list (the catch block re-reads the address without
trimming).  Returns the geocoded-count increment, the appended failures, the
new resolver state and the coordinate attached to the row. -/
def pdResolve (env : GeoEnv) (gs0 : GeoState) (row : Row) :
    ℕ × List String × GeoState × Option Coord :=
  match getCoordsFromRow row with
  | some coords =>
    let direccion := jsTrim (pickField row direccionKeys)
    let barrio := jsTrim (pickField row barrioKeys)
    let key := normalizeAddressForKey
      (if barrio ≠ "" then direccion ++ ", " ++ barrio else direccion)
    let ls1 := if key ≠ "" then lsSet gs0.ls (keyFor key) (.coordV coords) else gs0.ls
    (1, [], { gs0 with ls := ls1 }, some coords)
  | none =>
    let direccion := jsTrim (pickField row direccionKeys)
    if direccion = "" then (0, [], gs0, none)
    else
      match geocodeAddress env direccion gs0 with
      | (.ok (some g), gs1) => (1, [], gs1, some g)
      | (.ok none, gs1) => (0, [direccion], gs1, none)
      | (.error _, gs1) =>
        let d2 := pickField row direccionKeys
        (0, if d2 ≠ "" then [d2] else [], gs1, none)

/-- One iteration of the `processData` loop: resolve the row, then the
`finally` block increments `done` and reports `(done, total)` regardless of
the outcome. -/
def pdStep (env : GeoEnv) (total : ℕ) (acc : PdAcc) (row : Row) : PdAcc :=
  let r := pdResolve env acc.ps.geo row
  { done := acc.done + 1
    geocoded := acc.geocoded + r.1
    failed := acc.failed ++ r.2.1
    ps := { geo := r.2.2.1
            markers := acc.ps.markers ++ (match r.2.2.2 with
                                          | some c => [c]
                                          | none => [])
            progress := acc.ps.progress ++ [(acc.done + 1, total)] }
    outs := acc.outs ++ [⟨row, r.2.2.2⟩] }

/-- app.js lines 172-234: `processData` — keeps all rows in order, resets the
progress bar to `(0, total)`, then folds the per-row step over the batch.
(DOM-only effects — stat counters, confetti, the console log — are carried
by the returned counters and lists.) -/
def processData (env : GeoEnv) (rows : List Row) (st : PipeState) : PdAcc :=
  rows.foldl (pdStep env rows.length)
    ⟨0, 0, [], { st with progress := st.progress ++ [(0, rows.length)] }, []⟩

/-- `Array.from(new Set(xs))`: deduplication keeping the first occurrence of
every string, in order, as the failure list is logged on app.js line 230. -/
def dedupFirst : List String → List String
  | [] => []
  | a :: l => a :: (dedupFirst l).filter (fun b => b ≠ a)

/-- The deduplicated failure list of a finished run. -/
def uniquesOf (acc : PdAcc) : List String := dedupFirst acc.failed

/-! ### Export (app.js lines 362-402, the save-csv click handler)

A produced cell is either a raw number (resolved coordinates are emitted
unquoted) or a string (original cell content, quoted on serialization).
The final quoting/joining is a pure formatting stage that keeps the
row-by-row, cell-by-cell structure modelled here. -/

/-- An output cell before CSV serialization. -/
inductive CellVal where
  | num (q : ℚ)
  | str (s : String)
deriving DecidableEq, Repr

/-- The test `/^lat$/i.test(f)` of app.js line 366. -/
def latFieldRegex (f : String) : Bool := jsToLower f = "lat"

/-- The test `/^(lon|lng|long)$/i.test(f)` of app.js line 367. -/
def lonFieldRegex (f : String) : Bool :=
  jsToLower f = "lon" || jsToLower f = "lng" || jsToLower f = "long"

/-- app.js lines 365-370: the output header — the original fields, with
`Lat` and `Lon` appended exactly when no original field matches the
respective regex. -/
def exportOutFields (fields : List String) : List String :=
  (fields ++ (if fields.any latFieldRegex then [] else ["Lat"]))
    ++ (if fields.any lonFieldRegex then [] else ["Lon"])

/-- `allData[idx] || origRow` of app.js line 375. -/
def exportRowData (allD : List RowOut) (idx : ℕ) (origRow : Row) : RowOut :=
  match allD.get? idx with
  | some r => r
  | none => ⟨origRow, none⟩

/-- One output cell (app.js lines 379-386): fields matching the lat (resp.
lon) regex receive the resolved coordinate when `_geo` exists, else the
original `Lat`/`lat` (resp. `Lon`/`lon`/`Lng`/`lng`) value; every other
field keeps its original content (`base[f] ?? ''`). -/
def exportCell (origRow : Row) (r : RowOut) (f : String) : CellVal :=
  if latFieldRegex f then
    match r.geo with
    | some g => .num g.lat
    | none => .str (pickField origRow ["Lat", "lat"])
  else if lonFieldRegex f then
    match r.geo with
    | some g => .num g.lon
    | none => .str (pickField origRow ["Lon", "lon", "Lng", "lng"])
  else .str (pickField origRow [f])

/-- One output line, built from the original row at index `idx`. -/
def exportLine (fields : List String) (allD : List RowOut) (idx : ℕ) (origRow : Row) :
    List CellVal :=
  (exportOutFields fields).map (exportCell origRow (exportRowData allD idx origRow))

/-- One output line per original row, carrying the running index. -/
def exportRowsAux (fields : List String) (allD : List RowOut) :
    ℕ → List Row → List (List CellVal)
  | _, [] => []
  | idx, r :: rest => exportLine fields allD idx r :: exportRowsAux fields allD (idx + 1) rest

/-- app.js lines 373-393: one output line per original row, by index. -/
def exportRows (fields : List String) (origRows : List Row) (allD : List RowOut) :
    List (List CellVal) :=
  exportRowsAux fields allD 0 origRows

/-! ### The rate limiter under concurrency (part_001 lines 96-98/118 with the
worker pool of lines 195-228)

`lastGeocodeTs` is shared; each worker runs the straight-line sequence
"read delta, optionally sleep once, fetch, then write `lastGeocodeTs`" with
suspension points at the sleep and at the fetch.  A schedule interleaves
worker steps with clock advances. -/

/-- The configured minimum spacing (line 20). -/
def RATE_LIMIT_MS : ℕ := 1200

/-- Where a worker stands inside one `geocodeAddress` call: before the delta
check; suspended until `wake`; past the gate (acquisition completed at
`acq`) with the fetch in flight; or finished (fetch returned at `fin`,
timestamp written). -/
inductive WPhase where
  | ready
  | sleeping (wake : ℕ)
  | fetching (acq : ℕ)
  | finished (acq : ℕ) (fin : ℕ)
deriving DecidableEq, Repr

/-- The shared clock, the shared `lastGeocodeTs`, and each worker's phase. -/
structure RLState where
  now : ℕ
  lastTs : ℕ
  workers : List WPhase
deriving DecidableEq, Repr

/-- A scheduler event: advance the clock, or resume worker `i`. -/
inductive REv where
  | tick (d : ℕ)
  | run (i : ℕ)
deriving DecidableEq, Repr

/-- Resume worker `i` once: the delta check either passes the gate at once
(no await at all when `delta ≥ RATE_LIMIT_MS`) or suspends until the single
computed wake time; a sleeping worker may resume only at or after its wake
time; a completed fetch writes `lastGeocodeTs := Date.now()`. -/
def rlStepWorker (st : RLState) (i : ℕ) : RLState :=
  match st.workers.get? i with
  | none => st
  | some .ready =>
    if st.now - st.lastTs < RATE_LIMIT_MS then
      let wake := st.now + (RATE_LIMIT_MS - (st.now - st.lastTs))
      { st with workers := st.workers.set i (.sleeping wake) }
    else
      { st with workers := st.workers.set i (.fetching st.now) }
  | some (.sleeping wake) =>
    if wake ≤ st.now then { st with workers := st.workers.set i (.fetching st.now) }
    else st
  | some (.fetching acq) =>
    { st with lastTs := st.now, workers := st.workers.set i (.finished acq st.now) }
  | some (.finished _ _) => st

/-- Execute one scheduler event. -/
def rlStep (st : RLState) (e : REv) : RLState :=
  match e with
  | .tick d => { st with now := st.now + d }
  | .run i => rlStepWorker st i

/-- Execute a schedule. -/
def rlExec (st : RLState) (evs : List REv) : RLState :=
  evs.foldl rlStep st

/-- The acquisition-completion times recorded so far. -/
def acqTimes (st : RLState) : List ℕ :=
  st.workers.filterMap (fun w =>
    match w with
    | .fetching a => some a
    | .finished a _ => some a
    | _ => none)

/-! ### Two overlapping batches (app.js lines 310-331 with lines 172-234)

The change handler clears the shared cluster group and starts a new
`processData`; the previous invocation keeps iterating the row array it
captured.  A task step stands for one awaited resolution landing: its
result is committed to the shared cluster group.  Rows are represented by
the coordinates their resolutions produce. -/

/-- The shared cluster-group content and the captured remaining queues of
the two overlapping `processData` invocations. -/
structure BatchSim where
  cluster : List Coord
  batch1 : List Coord
  batch2 : List Coord
deriving DecidableEq, Repr

/-- An event: a pending resolution of batch 1 (resp. 2) lands and is
committed, or a new file is selected, which clears the cluster group and
installs the new batch — leaving the captured queue of batch 1 in place,
exactly as reassigning the global `allData` leaves the running loop's
iterator untouched. -/
inductive BEv where
  | land1
  | land2
  | selectNewFile (rows : List Coord)
deriving DecidableEq, Repr

/-- One event of the two-batch interleaving. -/
def bStep (s : BatchSim) : BEv → BatchSim
  | .land1 =>
    match s.batch1 with
    | [] => s
    | c :: rest => { s with cluster := s.cluster ++ [c], batch1 := rest }
  | .land2 =>
    match s.batch2 with
    | [] => s
    | c :: rest => { s with cluster := s.cluster ++ [c], batch2 := rest }
  | .selectNewFile rows => { cluster := [], batch1 := s.batch1, batch2 := rows }

/-- Run a sequence of interleaving events. -/
def bRun (s : BatchSim) (evs : List BEv) : BatchSim :=
  evs.foldl bStep s

/-! ### Spec-side extractor for the refinement claim C7

The claim reads the alias scan as case-insensitive matching of field names;
this definition follows that wording, to be compared with
`getCoordsFromRow`, which matches field names exactly. -/

/-- Modelled from the claim wording: the first alias that some field name
matches case-insensitively, with a non-empty value. -/
def firstAxisValCI (keys : List String) (row : Row) : Option String :=
  keys.findSome? (fun k =>
    row.findSome? (fun p =>
      if jsToLower p.1 = jsToLower k ∧ p.2 ≠ "" then some p.2 else none))

/-- Modelled from the claim wording: `getCoordsFromRow` with case-insensitive
field-name matching. -/
def getCoordsSpecCI (row : Row) : Option Coord :=
  match (firstAxisValCI latKeys row).bind parseNumberFlexible,
        (firstAxisValCI lonKeys row).bind parseNumberFlexible with
  | some a, some b => some ⟨a, b⟩
  | _, _ => none

/-! ### Shape of an unsigned decimal numeral, for the prefix-parse claim C10 -/

/-- `digits [. digits]`: a well-formed unsigned decimal numeral without
exponent, stated through `spanDigits`. -/
def numeralBody (n : List Char) : Bool :=
  !(spanDigits n).1.isEmpty &&
    ((spanDigits n).2.isEmpty ||
      ((spanDigits n).2.head? = some '.'
        && (spanDigits n).2.tail.all (fun c => c.isDigit)))

/-- The rational value of a well-formed unsigned numeral. -/
def numeralVal (n : List Char) : ℚ :=
  if (spanDigits n).2.head? = some '.' then
    (digitsVal (spanDigits n).1 : ℚ)
      + (digitsVal (spanDigits n).2.tail : ℚ) / (10 ^ (spanDigits n).2.tail.length)
  else (digitsVal (spanDigits n).1 : ℚ)

/-- The trailing text cannot extend the numeral `n`: it is empty, or starts
with a character that is not a digit, not an exponent marker, and is a dot
only when `n` already contains one. -/
def blockedTailB (n t : List Char) : Bool :=
  match t with
  | [] => true
  | c :: _ => !c.isDigit && (c != 'e') && (c != 'E') && ((c != '.') || decide ('.' ∈ n))

/-! ### Concrete fixtures used by witnesses and counterexamples -/

/-- An empty resolver state. -/
def gInit : GeoState := ⟨[], []⟩

/-- An empty pipeline state. -/
def pInit : PipeState := ⟨gInit, [], []⟩

/-- A provider that never finds a candidate; empty preload table. -/
def envNoMatch : GeoEnv := ⟨[], fun _ => .noMatch⟩

/-- A provider that always answers with the coordinate (1, 2). -/
def envOkOne : GeoEnv := ⟨[], fun _ => .ok ⟨1, 2⟩⟩

/-- A provider answering (0, 0), used against a pre-seeded cache. -/
def envZero : GeoEnv := ⟨[], fun _ => .ok ⟨0, 0⟩⟩

/-- A two-row batch: one row with native coordinates, one that needs (and
fails) resolution. -/
def rowsW : List Row :=
  [[("Lat", "1"), ("Lon", "2"), ("Direccion", "A")], [("Direccion", "B")]]

/-- A row with native coordinates and an address, first copy. -/
def rowA1 : Row := [("Direccion", "Calle A"), ("Lat", "1"), ("Lon", "2")]

/-- Same address as `rowA1` but different native coordinates. -/
def rowA2 : Row := [("Direccion", "Calle A"), ("Lat", "3"), ("Lon", "4")]

/-- A durable store seeded exactly as the testable-properties section of the
spec asks: the normalized Palermo address mapped to (-34.59, -58.40). -/
def seededLs : LStore :=
  [("geo:av. santa fe 3253, palermo", .coordV ⟨-3459/100, -584/10⟩)]

/-- Two workers about to race the rate-limit gate against a stale
`lastGeocodeTs = 0` at clock time 10000. -/
def rlInit2 : RLState := ⟨10000, 0, [.ready, .ready]⟩

/-! ## Helper lemmas -/

/-- `setItem` followed by `getItem` of the same key yields the value. -/
theorem lsGet_lsSet_self (ls : LStore) (k : String) (v : LSVal) :
    lsGet (lsSet ls k v) k = some v := by
  induction ls with
  | nil => simp [lsSet, lsGet]
  | cons p rest ih =>
    obtain ⟨k1, w⟩ := p
    by_cases hk : k1 = k
    · subst hk; simp [lsSet, lsGet]
    · simp [lsSet, lsGet, hk, ih]

/-- A durable-cache hit returns the stored coordinate and leaves the whole
resolver state (store and fetch trace) untouched. -/
theorem geocodeAddress_cache_hit (env : GeoEnv) (q : String) (st : GeoState) (c : Coord)
    (h : lsGet st.ls (keyFor q) = some (LSVal.coordV c)) :
    geocodeAddress env q st = (.ok (some c), st) := by
  unfold geocodeAddress
  rw [h]

/-! ## C2 -/

/-- C2: claimed — the check of the last-acquisition timestamp, the wait and
the update are serialized, so two racing workers can never both pass the gate
less than `RATE_LIMIT_MS` apart.  The code has no such serialization: with
`lastGeocodeTs` stale (its initial value 0) at time 10000, both workers read
`delta ≥ RATE_LIMIT_MS`, neither sleeps, and both acquisitions complete at
the same instant, 0 ms (< 1200 ms) apart, with the shared timestamp still
unwritten. -/
theorem C2_rate_limiter_race_eval :
    rlExec rlInit2 [REv.run 0, REv.run 1]
      = ⟨10000, 0, [WPhase.fetching 10000, WPhase.fetching 10000]⟩
    ∧ acqTimes (rlExec rlInit2 [REv.run 0, REv.run 1]) = [10000, 10000]
    ∧ 10000 - 10000 < RATE_LIMIT_MS := by decide

/-! ## C4 -/

/-- C4: counterexample — the clear-cache button is claimed to leave
UI-preference entries (the `ui:` prefix) unchanged, but it removes them:
with a geocode entry and the persisted cluster-radius preference present,
the preference is gone after the click. -/
theorem C4_ui_entries_removed :
    lsGet [("geo:calle a", LSVal.coordV ⟨1, 2⟩), ("ui:clusterRadius", LSVal.strV "40")]
        "ui:clusterRadius" = some (LSVal.strV "40")
    ∧ clearCacheClick
        [("geo:calle a", LSVal.coordV ⟨1, 2⟩), ("ui:clusterRadius", LSVal.strV "40")] = []
    ∧ ¬ (lsGet (clearCacheClick
        [("geo:calle a", LSVal.coordV ⟨1, 2⟩), ("ui:clusterRadius", LSVal.strV "40")])
        "ui:clusterRadius" = some (LSVal.strV "40")) := by
  exact ⟨by decide, by decide, by decide⟩

/-- C4 amended: the clear-cache click removes exactly the entries whose key
starts with `geo:` OR with `ui:` — every cached coordinate AND every
UI-preference entry — and leaves any other key unchanged. -/
theorem C4_clear_scope (ls : LStore) (k : String) :
    lsGet (clearCacheClick ls) k =
      if jsStartsWith k "geo:" || jsStartsWith k "ui:" then none else lsGet ls k := by
  induction ls with
  | nil => simp [clearCacheClick, lsGet]
  | cons p rest ih =>
    obtain ⟨k1, v⟩ := p
    by_cases hpref : (jsStartsWith k1 "geo:" || jsStartsWith k1 "ui:") = true
    · have hdrop : clearCacheClick ((k1, v) :: rest) = clearCacheClick rest := by
        simp only [clearCacheClick, List.filter_cons, hpref, Bool.not_true]
        simp
      rw [hdrop, ih]
      by_cases hk : k1 = k
      · subst hk; simp [lsGet, hpref]
      · simp [lsGet, hk]
    · have hkeep : clearCacheClick ((k1, v) :: rest) = (k1, v) :: clearCacheClick rest := by
        simp only [Bool.not_eq_true] at hpref
        simp only [clearCacheClick, List.filter_cons, hpref, Bool.not_false]
        simp
      rw [hkeep]
      by_cases hk : k1 = k
      · subst hk
        simp only [Bool.not_eq_true] at hpref
        simp [lsGet, hpref]
      · simp [lsGet, hk, ih]

/-! ## C5 -/

/-- C5: counterexample — the native-coordinate seeding branch writes
unconditionally, so processing two rows carrying the same address but
different native coordinates overwrites the cache entry `geo:calle a` with a
different value. -/
theorem C5_seed_overwrites :
    lsGet (processData envNoMatch [rowA1] pInit).ps.geo.ls "geo:calle a"
      = some (LSVal.coordV ⟨1, 2⟩)
    ∧ lsGet (processData envNoMatch [rowA2]
        (processData envNoMatch [rowA1] pInit).ps).ps.geo.ls "geo:calle a"
      = some (LSVal.coordV ⟨3, 4⟩)
    ∧ (⟨1, 2⟩ : Coord) ≠ ⟨3, 4⟩ := by
  exact ⟨rfl, rfl, by decide⟩

/-- C5 amended: the resolver itself never overwrites — when the key is
already cached, `geocodeAddress` returns the stored coordinate and leaves
the store untouched; only the native-coordinate write-through (and the
preload/import seeding) writes over an existing entry. -/
theorem C5_resolver_never_overwrites (env : GeoEnv) (q : String) (st : GeoState) (c : Coord)
    (h : lsGet st.ls (keyFor q) = some (LSVal.coordV c)) :
    geocodeAddress env q st = (.ok (some c), st) :=
  geocodeAddress_cache_hit env q st c h

/-- C5 witness: the amended theorem applied to a concrete cached entry. -/
theorem C5_resolver_never_overwrites_witness :
    geocodeAddress envNoMatch "a" ⟨[("geo:a", LSVal.coordV ⟨1, 2⟩)], []⟩
      = (.ok (some ⟨1, 2⟩), ⟨[("geo:a", LSVal.coordV ⟨1, 2⟩)], []⟩) :=
  C5_resolver_never_overwrites envNoMatch "a" ⟨[("geo:a", LSVal.coordV ⟨1, 2⟩)], []⟩ ⟨1, 2⟩ rfl

/-! ## C6 -/

/-- C6: counterexample — the storage key lower-cases but does not trim, so
after seeding the cache under the normalized key, a query differing only by
surrounding whitespace misses the durable cache and (the preload table being
empty, as it always is in app.js) issues a network call and returns the
provider answer, not the seeded coordinate. -/
theorem C6_whitespace_misses_cache :
    (geocodeAddress envZero "av. santa fe 3253, palermo " ⟨seededLs, []⟩).2.fetches
      = ["av. santa fe 3253, palermo "]
    ∧ (geocodeAddress envZero "av. santa fe 3253, palermo " ⟨seededLs, []⟩).1
      = .ok (some ⟨0, 0⟩)
    ∧ lsGet seededLs (keyFor "av. santa fe 3253, palermo ") = none
    ∧ normalizeAddressForKey "av. santa fe 3253, palermo "
      = "av. santa fe 3253, palermo" := by
  exact ⟨rfl, rfl, rfl, rfl⟩

/-- C6 amended: equivalence up to case does hold — any query whose
lower-casing agrees with that of a cached query resolves to the seeded
coordinate with the state unchanged (no network call); only surrounding
whitespace breaks the durable-cache hit, because `keyFor` does not trim. -/
theorem C6_cache_equiv_case_only (env : GeoEnv) (st : GeoState) (q q1 : String) (c : Coord)
    (hcase : jsToLower q1 = jsToLower q)
    (h : lsGet st.ls (keyFor q) = some (LSVal.coordV c)) :
    geocodeAddress env q1 st = (.ok (some c), st) := by
  have hk : keyFor q1 = keyFor q := by unfold keyFor; rw [hcase]
  exact geocodeAddress_cache_hit env q1 st c (by rw [hk]; exact h)

/-- C6 witness: a case-variant of the seeded Palermo query hits the seeded
entry with no fetch. -/
theorem C6_cache_equiv_case_only_witness :
    geocodeAddress envZero "AV. Santa Fe 3253, Palermo" ⟨seededLs, []⟩
      = (.ok (some ⟨-3459/100, -584/10⟩), ⟨seededLs, []⟩) :=
  C6_cache_equiv_case_only envZero ⟨seededLs, []⟩ "av. santa fe 3253, palermo"
    "AV. Santa Fe 3253, Palermo" ⟨-3459/100, -584/10⟩ rfl rfl

/-! ## C3 -/

/-- C3: counterexample — when the provider returns zero candidates, nothing
is cached, so resolving the same address twice in sequence issues two
external network calls, not at most one. -/
theorem C3_nomatch_refetches :
    (geocodeAddress envNoMatch "calle falsa 123"
        (geocodeAddress envNoMatch "calle falsa 123" gInit).2).2.fetches
      = ["calle falsa 123", "calle falsa 123"]
    ∧ ¬ ((geocodeAddress envNoMatch "calle falsa 123"
        (geocodeAddress envNoMatch "calle falsa 123" gInit).2).2.fetches.length ≤ 1) := by
  exact ⟨by decide, by decide⟩

/-- C3 amended: when the first resolve succeeds with a coordinate, the
second resolve of the same address is answered from the cache — same answer,
state unchanged, no further network call — and the pair issues at most one
network call; and a resolve that ends in `null` (zero candidates) leaves the
durable store unchanged, so a repeated no-match query contacts the provider
again. -/
theorem C3_second_resolve_cached :
    (∀ (env : GeoEnv) (q : String) (st stB : GeoState) (c : Coord),
        geocodeAddress env q st = (.ok (some c), stB) →
        geocodeAddress env q stB = (.ok (some c), stB)
        ∧ stB.fetches.length ≤ st.fetches.length + 1)
    ∧ (∀ (env : GeoEnv) (q : String) (st : GeoState),
        (geocodeAddress env q st).1 = .ok none → (geocodeAddress env q st).2.ls = st.ls) := by
  constructor
  · intro env q st stB c h
    rcases hls : lsGet st.ls (keyFor q) with _ | v
    · rcases hpre : (env.preloaded.find? (fun p => p.1 = normalizeAddressForKey q)).map
          (fun p => p.2) with _ | c0
      · rcases hpr : env.provider q with c0 | _ | _
        · simp only [geocodeAddress, hls, hpre, hpr, Prod.mk.injEq, Except.ok.injEq,
            Option.some.injEq] at h
          obtain ⟨rfl, rfl⟩ := h
          refine ⟨geocodeAddress_cache_hit env q _ c0 (lsGet_lsSet_self _ _ _), ?_⟩
          simp
        · simp [geocodeAddress, hls, hpre, hpr] at h
        · simp [geocodeAddress, hls, hpre, hpr] at h
      · simp only [geocodeAddress, hls, hpre, Prod.mk.injEq, Except.ok.injEq,
          Option.some.injEq] at h
        obtain ⟨rfl, rfl⟩ := h
        exact ⟨geocodeAddress_cache_hit env q _ c0 (lsGet_lsSet_self _ _ _), Nat.le_succ _⟩
    · cases v with
      | coordV c0 =>
        simp only [geocodeAddress, hls, Prod.mk.injEq, Except.ok.injEq,
          Option.some.injEq] at h
        obtain ⟨rfl, rfl⟩ := h
        exact ⟨geocodeAddress_cache_hit env q st c0 hls, Nat.le_succ _⟩
      | strV s => simp [geocodeAddress, hls] at h
  · intro env q st h
    rcases hls : lsGet st.ls (keyFor q) with _ | v
    · rcases hpre : (env.preloaded.find? (fun p => p.1 = normalizeAddressForKey q)).map
          (fun p => p.2) with _ | c0
      · rcases hpr : env.provider q with c0 | _ | _
        · simp [geocodeAddress, hls, hpre, hpr] at h
        · simp [geocodeAddress, hls, hpre, hpr]
        · simp [geocodeAddress, hls, hpre, hpr] at h
      · simp [geocodeAddress, hls, hpre] at h
    · cases v with
      | coordV c0 => simp [geocodeAddress, hls] at h
      | strV s => simp [geocodeAddress, hls]

/-- C3 witness: the amended theorem applied after a successful first
resolve of the query `a`. -/
theorem C3_second_resolve_cached_witness :
    geocodeAddress envOkOne "a" ⟨[("geo:a", LSVal.coordV ⟨1, 2⟩)], ["a"]⟩
      = (.ok (some ⟨1, 2⟩), ⟨[("geo:a", LSVal.coordV ⟨1, 2⟩)], ["a"]⟩)
    ∧ (⟨[("geo:a", LSVal.coordV ⟨1, 2⟩)], ["a"]⟩ : GeoState).fetches.length
      ≤ gInit.fetches.length + 1 :=
  C3_second_resolve_cached.1 envOkOne "a" gInit
    ⟨[("geo:a", LSVal.coordV ⟨1, 2⟩)], ["a"]⟩ ⟨1, 2⟩ rfl

/-! ## C8 -/

/-- C8: counterexample — selecting a new file while batch 1 still has a row
in flight does not stop batch 1: after the replacement clears the cluster
group, the stale resolution of batch 1 lands and its marker (2, 2) is
committed next to the new batch marker (9, 9). -/
theorem C8_stale_batch_commits :
    bRun ⟨[], [⟨1, 1⟩, ⟨2, 2⟩], []⟩
        [BEv.land1, BEv.selectNewFile [⟨9, 9⟩], BEv.land1, BEv.land2]
      = ⟨[⟨2, 2⟩, ⟨9, 9⟩], [], []⟩
    ∧ (⟨2, 2⟩ : Coord) ∈ (bRun ⟨[], [⟨1, 1⟩, ⟨2, 2⟩], []⟩
        [BEv.land1, BEv.selectNewFile [⟨9, 9⟩], BEv.land1, BEv.land2]).cluster := by
  exact ⟨rfl, by decide⟩

/-- Landing every remaining batch-1 resolution appends exactly those
coordinates to the cluster group. -/
theorem bRun_drain (b2 : List Coord) :
    ∀ (pending cl : List Coord),
      bRun ⟨cl, pending, b2⟩ (List.replicate pending.length BEv.land1)
        = ⟨cl ++ pending, [], b2⟩ := by
  intro pending
  induction pending with
  | nil => intro cl; simp [bRun]
  | cons c rest ih =>
    intro cl
    have hs : bStep ⟨cl, c :: rest, b2⟩ BEv.land1 = ⟨cl ++ [c], rest, b2⟩ := rfl
    have hrest := ih (cl ++ [c])
    simp only [bRun, List.length_cons, List.replicate_succ, List.foldl_cons] at hrest ⊢
    rw [hs, hrest]
    simp

/-- C8 amended: a new file selection clears the shared cluster group and
installs the new queue, but the previous batch keeps its captured row array:
every one of its remaining resolutions still lands and is committed to the
shared cluster group after the replacement (stale results are not
discarded). -/
theorem C8_previous_batch_continues (cl pending rows2 : List Coord) :
    bRun ⟨cl, pending, []⟩
        (BEv.selectNewFile rows2 :: List.replicate pending.length BEv.land1)
      = ⟨pending, [], rows2⟩ := by
  have hs : bStep ⟨cl, pending, []⟩ (BEv.selectNewFile rows2) = ⟨[], pending, rows2⟩ := rfl
  have hdrain := bRun_drain rows2 pending []
  simp only [bRun, List.foldl_cons] at hdrain ⊢
  rw [hs]
  simpa using hdrain

/-! ## Lemmas on the numeral parser -/

/-- `spanDigits` splits its input back together. -/
theorem spanDigits_decomp (cs : List Char) :
    (spanDigits cs).1 ++ (spanDigits cs).2 = cs := by
  induction cs with
  | nil => rfl
  | cons c rest ih =>
    by_cases hd : c.isDigit
    · simp [spanDigits, hd, ih]
    · simp [spanDigits, hd]

/-- Every character of the first `spanDigits` component is a digit. -/
theorem spanDigits_fst_digits (cs : List Char) :
    ∀ c ∈ (spanDigits cs).1, c.isDigit = true := by
  induction cs with
  | nil => simp [spanDigits]
  | cons c rest ih =>
    by_cases hd : c.isDigit
    · intro x hx
      simp only [spanDigits, hd, if_pos, List.mem_cons] at hx
      rcases hx with rfl | hx
      · exact hd
      · exact ih x hx
    · intro x hx
      simp [spanDigits, hd] at hx

/-- `spanDigits` on digits followed by a non-digit boundary. -/
theorem spanDigits_append (ds rest : List Char) (hds : ∀ c ∈ ds, c.isDigit = true)
    (hrest : ∀ c, rest.head? = some c → c.isDigit = false) :
    spanDigits (ds ++ rest) = (ds, rest) := by
  induction ds with
  | nil =>
    cases rest with
    | nil => rfl
    | cons c cs =>
      have hc := hrest c rfl
      simp [spanDigits, hc]
  | cons d ds ih =>
    have hd := hds d (by simp)
    have ih2 := ih (fun c hc => hds c (by simp [hc]))
    simp [spanDigits, hd, ih2]

/-- A well-formed numeral starts with a digit. -/
theorem numeralBody_head_digit (n : List Char) (hn : numeralBody n = true) :
    ∃ d n0, n = d :: n0 ∧ d.isDigit = true := by
  cases n with
  | nil => simp [numeralBody, spanDigits] at hn
  | cons d n0 =>
    by_cases hd : d.isDigit
    · exact ⟨d, n0, rfl, hd⟩
    · simp [numeralBody, spanDigits, hd] at hn

/-- A digit run contains no dot. -/
theorem no_dot_of_digits (l : List Char) (h : ∀ c ∈ l, c.isDigit = true)
    (hmem : '.' ∈ l) : False := by
  have := h '.' hmem
  simp at this

/-- Unpacking of the blocked-tail condition at a non-empty tail. -/
theorem blockedTailB_dest (n t : List Char) (ht : blockedTailB n t = true) :
    ∀ c, t.head? = some c →
      c.isDigit = false ∧ c ≠ 'e' ∧ c ≠ 'E' ∧ (c = '.' → '.' ∈ n) := by
  intro c hc
  cases t with
  | nil => simp at hc
  | cons c0 t0 =>
    simp only [List.head?_cons, Option.some.injEq] at hc
    subst hc
    simp only [blockedTailB, Bool.and_eq_true, Bool.not_eq_true', bne_iff_ne, ne_eq,
      Bool.or_eq_true, decide_eq_true_eq] at ht
    obtain ⟨⟨⟨h1, h2⟩, h3⟩, h4⟩ := ht
    refine ⟨h1, h2, h3, fun hdot => ?_⟩
    rcases h4 with h4 | h4
    · exact absurd hdot h4
    · exact h4

/-- The mantissa of a numeral followed by a blocked tail is the numeral
itself, and the tail is handed on unconsumed. -/
theorem parseMantissa_append (n t : List Char)
    (hn : numeralBody n = true) (ht : blockedTailB n t = true) :
    parseMantissa (n ++ t) = some (numeralVal n, t) := by
  rcases hsp : spanDigits n with ⟨ip, r⟩
  have hdecomp : ip ++ r = n := by
    have h := spanDigits_decomp n
    rw [hsp] at h
    exact h
  have hip_digits : ∀ c ∈ ip, c.isDigit = true := by
    have h := spanDigits_fst_digits n
    rw [hsp] at h
    exact h
  have htnd : ∀ c, t.head? = some c → c.isDigit = false :=
    fun c hc => (blockedTailB_dest n t ht c hc).1
  unfold numeralBody at hn
  rw [hsp] at hn
  simp only [Bool.and_eq_true, Bool.not_eq_true', Bool.or_eq_true, List.isEmpty_iff,
    Bool.and_eq_true, decide_eq_true_eq] at hn
  obtain ⟨hipe, hcase⟩ := hn
  have hipne : ip ≠ [] := by
    intro he
    rw [he] at hipe
    simp at hipe
  rcases hcase with hre | ⟨hdot, hfr⟩
  · -- r = [] : the numeral is pure digits
    subst hre
    simp only [List.append_nil] at hdecomp
    subst hdecomp
    have hnodot : ¬ t.head? = some '.' := by
      intro hc
      have hmem := (blockedTailB_dest ip t ht '.' hc).2.2.2 rfl
      exact no_dot_of_digits ip hip_digits hmem
    have hsp2 : spanDigits (ip ++ t) = (ip, t) := spanDigits_append ip t hip_digits htnd
    have hval : numeralVal ip = (digitsVal ip : ℚ) := by
      unfold numeralVal
      rw [hsp]
      simp
    unfold parseMantissa
    rw [hsp2]
    simp [hnodot, List.isEmpty_iff, hipne, hval]
  · -- r = '.' :: fraction digits
    cases r with
    | nil => simp at hdot
    | cons rc r2 =>
      simp only [List.head?_cons, Option.some.injEq] at hdot
      subst hdot
      simp only [List.tail_cons, List.all_eq_true, decide_eq_true_eq] at hfr
      have hre : n ++ t = ip ++ ('.' :: (r2 ++ t)) := by
        rw [← hdecomp]
        simp
      have hsp2 : spanDigits (n ++ t) = (ip, '.' :: (r2 ++ t)) := by
        rw [hre]
        refine spanDigits_append ip ('.' :: (r2 ++ t)) hip_digits ?_
        intro c hc
        simp only [List.head?_cons, Option.some.injEq] at hc
        subst hc
        decide
      have hsp3 : spanDigits (r2 ++ t) = (r2, t) := spanDigits_append r2 t hfr htnd
      have hval : numeralVal n
          = (digitsVal ip : ℚ) + (digitsVal r2 : ℚ) / (10 ^ r2.length) := by
        unfold numeralVal
        rw [hsp]
        simp
      unfold parseMantissa
      rw [hsp2]
      simp [hsp3, List.isEmpty_iff, hipne, hval]

/-- `parseExponent` leaves the mantissa alone when the remaining text does
not start with an exponent marker. -/
theorem parseExponent_blocked (m : ℚ) (t : List Char)
    (h : ∀ c, t.head? = some c → c ≠ 'e' ∧ c ≠ 'E') :
    parseExponent m t = m := by
  cases t with
  | nil => rfl
  | cons c rest =>
    have hc := h c rfl
    have hne : ¬ (c = 'e' ∨ c = 'E') := by
      rintro (h1 | h1)
      · exact hc.1 h1
      · exact hc.2 h1
    simp [parseExponent, hne]

/-- `parseFloat` of a well-formed unsigned numeral followed by a blocked
tail is the value of the numeral: the trailing text is ignored. -/
theorem jsParseFloat_append (n t : List Char) (hn : numeralBody n = true)
    (ht : blockedTailB n t = true) :
    jsParseFloat (n ++ t) = some (numeralVal n) := by
  obtain ⟨d, n0, hcons, hd⟩ := numeralBody_head_digit n hn
  have hdm : d ≠ '-' := by
    intro he
    rw [he] at hd
    exact absurd hd (by decide)
  have hdp : d ≠ '+' := by
    intro he
    rw [he] at hd
    exact absurd hd (by decide)
  have hsign : jsSignSplit (n ++ t) = (false, n ++ t) := by
    rw [hcons]
    simp [jsSignSplit, hdm, hdp]
  have hexp : parseExponent (numeralVal n) t = numeralVal n :=
    parseExponent_blocked (numeralVal n) t
      (fun c hc => ⟨(blockedTailB_dest n t ht c hc).2.1, (blockedTailB_dest n t ht c hc).2.2.1⟩)
  unfold jsParseFloat
  rw [hsign, parseMantissa_append n t hn ht]
  simp [hexp]

/-! ## C7 -/

/-- The native-coordinate branch of the pipeline: when the extractor
succeeds, the row is accepted with no resolver state change beyond the
cache seeding — in particular no fetch. -/
theorem pdResolve_native (env : GeoEnv) (gs : GeoState) (row : Row) (c : Coord)
    (h : getCoordsFromRow row = some c) :
    (pdResolve env gs row).1 = 1 ∧ (pdResolve env gs row).2.1 = []
    ∧ (pdResolve env gs row).2.2.1.fetches = gs.fetches
    ∧ (pdResolve env gs row).2.2.2 = some c := by
  simp [pdResolve, h]

/-- C7: counterexample — field-name matching is exact, not case-insensitive:
the row with field `LaT` parses on both axes under the case-insensitive
reading of the alias scan, but `getCoordsFromRow` returns `null` because
`LaT` is not one of the enumerated spellings. -/
theorem C7_exact_matching_counterexample :
    getCoordsFromRow [("LaT", "1"), ("Lon", "2")] = none
    ∧ getCoordsSpecCI [("LaT", "1"), ("Lon", "2")] = some ⟨1, 2⟩ := by
  exact ⟨by decide, by decide⟩

/-- C7 amended: matching the alias lists is by exact field name (the lists
enumerate specific spellings); for any row where the exactly-matched axes
both parse finite, the extractor returns that coordinate and the per-row
pipeline step commits it without touching the network; when either axis
fails to parse finite, the extractor returns absent. -/
theorem C7_native_rows_skip_resolver :
    (∀ (row : Row) (c : Coord), getCoordsFromRow row = some c →
        ∀ (env : GeoEnv) (gs : GeoState),
          (pdResolve env gs row).2.2.1.fetches = gs.fetches
          ∧ (pdResolve env gs row).1 = 1
          ∧ (pdResolve env gs row).2.2.2 = some c)
    ∧ (∀ row : Row,
        ((firstAxisVal latKeys row).bind parseNumberFlexible = none
          ∨ (firstAxisVal lonKeys row).bind parseNumberFlexible = none) →
        getCoordsFromRow row = none) := by
  constructor
  · intro row c h env gs
    have hn := pdResolve_native env gs row c h
    exact ⟨hn.2.2.1, hn.1, hn.2.2.2⟩
  · intro row h
    rcases h with h | h
    · simp [getCoordsFromRow, h]
    · rcases hl : (firstAxisVal latKeys row).bind parseNumberFlexible with _ | a <;>
        simp [getCoordsFromRow, h, hl]

/-- C7 witness: the amended theorem applied to a row with exact aliases. -/
theorem C7_native_rows_skip_resolver_witness :
    (pdResolve envNoMatch gInit
        [("Lat", "1"), ("Lon", "2"), ("Direccion", "A")]).2.2.1.fetches = gInit.fetches
    ∧ (pdResolve envNoMatch gInit [("Lat", "1"), ("Lon", "2"), ("Direccion", "A")]).1 = 1
    ∧ (pdResolve envNoMatch gInit
        [("Lat", "1"), ("Lon", "2"), ("Direccion", "A")]).2.2.2 = some ⟨1, 2⟩ :=
  C7_native_rows_skip_resolver.1 [("Lat", "1"), ("Lon", "2"), ("Direccion", "A")] ⟨1, 2⟩
    (by decide) envNoMatch gInit

/-! ## Lemmas for the pipeline accounting (C1) -/

/-- Membership is preserved by the set-style deduplication. -/
theorem mem_dedupFirst (l : List String) (x : String) : x ∈ dedupFirst l ↔ x ∈ l := by
  induction l with
  | nil => simp [dedupFirst]
  | cons a l ih =>
    simp only [dedupFirst, List.mem_cons, List.mem_filter]
    constructor
    · rintro (rfl | ⟨hx, _⟩)
      · exact Or.inl rfl
      · exact Or.inr (ih.mp hx)
    · rintro (rfl | hx)
      · exact Or.inl rfl
      · by_cases hxa : x = a
        · exact Or.inl hxa
        · exact Or.inr ⟨ih.mpr hx, by simp [hxa]⟩

/-- The deduplicated list has no duplicates. -/
theorem nodup_dedupFirst (l : List String) : (dedupFirst l).Nodup := by
  induction l with
  | nil => simp [dedupFirst]
  | cons a l ih =>
    simp only [dedupFirst, List.nodup_cons]
    constructor
    · intro hmem
      rw [List.mem_filter] at hmem
      simp at hmem
    · exact List.Nodup.filter _ ih

/-- Rows split into those with and those without native coordinates. -/
theorem countP_isSome_add_isNone (rows : List Row) :
    rows.countP (fun r => (getCoordsFromRow r).isSome)
      + rows.countP (fun r => (getCoordsFromRow r).isNone) = rows.length := by
  induction rows with
  | nil => simp
  | cons r rest ih =>
    rcases h : getCoordsFromRow r with _ | c <;>
      simp [List.countP_cons, h] <;> omega

/-- With a provider that never fails at the HTTP level, `geocodeAddress`
never throws. -/
theorem geocodeAddress_fst_ok (env : GeoEnv) (q : String) (st : GeoState)
    (hp : env.provider q ≠ ProviderResult.httpError) :
    ∃ o, (geocodeAddress env q st).1 = .ok o := by
  rcases hls : lsGet st.ls (keyFor q) with _ | v
  · rcases hpre : (env.preloaded.find? (fun p => p.1 = normalizeAddressForKey q)).map
        (fun p => p.2) with _ | c0
    · rcases hpr : env.provider q with c0 | _ | _
      · exact ⟨some c0, by simp [geocodeAddress, hls, hpre, hpr]⟩
      · exact ⟨none, by simp [geocodeAddress, hls, hpre, hpr]⟩
      · exact absurd hpr hp
    · exact ⟨some c0, by simp [geocodeAddress, hls, hpre]⟩
  · cases v with
    | coordV c0 => exact ⟨some c0, by simp [geocodeAddress, hls]⟩
    | strV s => exact ⟨none, by simp [geocodeAddress, hls]⟩

/-- A row without native coordinates but with address text contributes
exactly one outcome: a geocoded success or one failure entry. -/
theorem pdResolve_nonnative (env : GeoEnv) (gs : GeoState) (row : Row)
    (h : getCoordsFromRow row = none) (hd : direccionOf row ≠ "")
    (hp : ∀ q, env.provider q ≠ ProviderResult.httpError) :
    (pdResolve env gs row).1 + (pdResolve env gs row).2.1.length = 1 := by
  have hd2 : jsTrim (pickField row direccionKeys) ≠ "" := hd
  obtain ⟨o, ho⟩ := geocodeAddress_fst_ok env (jsTrim (pickField row direccionKeys)) gs (hp _)
  rcases hga : geocodeAddress env (jsTrim (pickField row direccionKeys)) gs with ⟨res, gs1⟩
  have hres : res = .ok o := by rw [hga] at ho; exact ho
  subst hres
  cases o with
  | none => simp [pdResolve, h, hd2, hga]
  | some g => simp [pdResolve, h, hd2, hga]

/-- A row appends at most one failure entry. -/
theorem pdResolve_fail_len (env : GeoEnv) (gs : GeoState) (row : Row) :
    (pdResolve env gs row).2.1.length ≤ 1 := by
  rcases h : getCoordsFromRow row with _ | c
  · by_cases hd : jsTrim (pickField row direccionKeys) = ""
    · simp [pdResolve, h, hd]
    · rcases hga : geocodeAddress env (jsTrim (pickField row direccionKeys)) gs with ⟨res, gs1⟩
      rcases res with e | o
      · simp [pdResolve, h, hd, hga]
        split <;> simp
      · cases o <;> simp [pdResolve, h, hd, hga]
  · simp [pdResolve, h]

/-- The `finally` counter of one step. -/
theorem pdStep_done (env : GeoEnv) (total : ℕ) (acc : PdAcc) (row : Row) :
    (pdStep env total acc row).done = acc.done + 1 := rfl

/-- One step adds the geocoded increment of the row. -/
theorem pdStep_geocoded (env : GeoEnv) (total : ℕ) (acc : PdAcc) (row : Row) :
    (pdStep env total acc row).geocoded
      = acc.geocoded + (pdResolve env acc.ps.geo row).1 := rfl

/-- One step appends the failure entries of the row. -/
theorem pdStep_failed (env : GeoEnv) (total : ℕ) (acc : PdAcc) (row : Row) :
    (pdStep env total acc row).failed
      = acc.failed ++ (pdResolve env acc.ps.geo row).2.1 := rfl

/-- One step reports `(done + 1, total)` exactly once, whatever the row
outcome was. -/
theorem pdStep_progress (env : GeoEnv) (total : ℕ) (acc : PdAcc) (row : Row) :
    (pdStep env total acc row).ps.progress
      = acc.ps.progress ++ [(acc.done + 1, total)] := rfl

/-- The loop invariant of `processData`: done advances by the row count, each
row contributes exactly one of geocoded/failed, failures are bounded by the
non-native rows, and the progress trace extends by one report per row. -/
theorem pdLoop_invariant (env : GeoEnv) (total : ℕ)
    (hp : ∀ q, env.provider q ≠ ProviderResult.httpError) :
    ∀ (rows : List Row) (acc : PdAcc),
      (∀ r ∈ rows, getCoordsFromRow r = none → direccionOf r ≠ "") →
      (List.foldl (pdStep env total) acc rows).done = acc.done + rows.length
      ∧ (List.foldl (pdStep env total) acc rows).geocoded
          + (List.foldl (pdStep env total) acc rows).failed.length
          = acc.geocoded + acc.failed.length + rows.length
      ∧ (List.foldl (pdStep env total) acc rows).failed.length
          ≤ acc.failed.length + rows.countP (fun r => (getCoordsFromRow r).isNone)
      ∧ (List.foldl (pdStep env total) acc rows).ps.progress
          = acc.ps.progress
            ++ (List.range rows.length).map (fun i => (acc.done + i + 1, total)) := by
  intro rows
  induction rows with
  | nil =>
    intro acc h1
    simp
  | cons row rest ih =>
    intro acc h1
    have hrow := h1 row (List.mem_cons_self row rest)
    have hrest : ∀ r ∈ rest, getCoordsFromRow r = none → direccionOf r ≠ "" :=
      fun r hr => h1 r (List.mem_cons_of_mem row hr)
    obtain ⟨ih1, ih2, ih3, ih4⟩ := ih (pdStep env total acc row) hrest
    have hcnt1 : (pdResolve env acc.ps.geo row).1
        + (pdResolve env acc.ps.geo row).2.1.length = 1 := by
      rcases hc : getCoordsFromRow row with _ | c
      · exact pdResolve_nonnative env acc.ps.geo row hc (hrow hc) hp
      · have hn := pdResolve_native env acc.ps.geo row c hc
        rw [hn.1, hn.2.1]
        simp
    have hcnt2a : (getCoordsFromRow row).isNone = false →
        (pdResolve env acc.ps.geo row).2.1.length = 0 := by
      intro hno
      rcases hc : getCoordsFromRow row with _ | c
      · rw [hc] at hno
        simp at hno
      · have hn := pdResolve_native env acc.ps.geo row c hc
        rw [hn.2.1]
        rfl
    have hcnt2b : (pdResolve env acc.ps.geo row).2.1.length ≤ 1 :=
      pdResolve_fail_len env acc.ps.geo row
    refine ⟨?_, ?_, ?_, ?_⟩
    · simp only [List.foldl_cons]
      rw [ih1, pdStep_done]
      simp only [List.length_cons]
      omega
    · simp only [List.foldl_cons]
      rw [ih2, pdStep_geocoded, pdStep_failed]
      simp only [List.length_append, List.length_cons]
      omega
    · simp only [List.foldl_cons]
      refine le_trans ih3 ?_
      rw [pdStep_failed]
      simp only [List.length_append, List.countP_cons]
      rcases hc : (getCoordsFromRow row).isNone with _ | _
      · have h0 := hcnt2a hc
        simp [hc, h0]
      · simp only [hc, if_pos]
        omega
    · simp only [List.foldl_cons]
      rw [ih4, pdStep_progress, pdStep_done]
      simp only [List.length_cons, List.range_succ_eq_map, List.map_cons, List.map_map]
      rw [List.append_assoc, List.singleton_append]
      have hfe : ((fun i => (acc.done + i + 1, total)) ∘ Nat.succ)
          = (fun i => (acc.done + 1 + i + 1, total)) := by
        funext i
        have harith : acc.done + (i + 1) + 1 = acc.done + 1 + i + 1 := by omega
        simp [Function.comp, Nat.succ_eq_add_one, harith]
      rw [hfe]

/-! ## C1 -/

/-- C1: for a batch where every non-native row carries address text and the
provider never fails at the HTTP level, the run visits every row exactly
once (`done = K`), every row ends as either a geocoded success or a failure
entry (`geocoded + F = K`, hence `geocoded = M + ((K - M) - F)` with `M` the
native-coordinate rows), the logged failure list is the failure multiset
deduplicated by exact string equality (same membership, no duplicates), and
the progress reporter is invoked with `(done, total)` after every row, the
done counter passing through 1..K exactly once after the initial `(0, K)`
reset. -/
theorem C1_pipeline_accounting (env : GeoEnv) (rows : List Row) (st : PipeState)
    (h1 : ∀ r ∈ rows, getCoordsFromRow r = none → direccionOf r ≠ "")
    (hp : ∀ q, env.provider q ≠ ProviderResult.httpError) :
    (processData env rows st).done = rows.length
    ∧ (processData env rows st).geocoded + (processData env rows st).failed.length
      = rows.length
    ∧ (processData env rows st).failed.length
      ≤ rows.length - rows.countP (fun r => (getCoordsFromRow r).isSome)
    ∧ (processData env rows st).geocoded
      = rows.countP (fun r => (getCoordsFromRow r).isSome)
        + ((rows.length - rows.countP (fun r => (getCoordsFromRow r).isSome))
            - (processData env rows st).failed.length)
    ∧ (uniquesOf (processData env rows st)).Nodup
    ∧ (∀ s, s ∈ uniquesOf (processData env rows st)
        ↔ s ∈ (processData env rows st).failed)
    ∧ (processData env rows st).ps.progress
      = st.progress
        ++ (0, rows.length) :: (List.range rows.length).map (fun i => (i + 1, rows.length)) := by
  obtain ⟨hi1, hi2, hi3, hi4⟩ := pdLoop_invariant env rows.length hp rows
    ⟨0, 0, [], { st with progress := st.progress ++ [(0, rows.length)] }, []⟩ h1
  have hM := countP_isSome_add_isNone rows
  unfold processData
  simp only [List.length_nil, Nat.zero_add, Nat.add_zero] at hi1 hi2 hi3
  refine ⟨?_, ?_, ?_, ?_, nodup_dedupFirst _, fun s => mem_dedupFirst _ s, ?_⟩
  · omega
  · omega
  · refine le_trans hi3 ?_
    omega
  · omega
  · rw [hi4]
    simp [List.append_assoc, List.singleton_append]

/-- C1 witness: the accounting theorem applied to a concrete two-row batch
(one native row, one failing resolution). -/
theorem C1_pipeline_accounting_witness :
    (processData envNoMatch rowsW pInit).done = rowsW.length :=
  (C1_pipeline_accounting envNoMatch rowsW pInit (by decide)
    (fun _ => by simp [envNoMatch])).1

/-! ## C9 -/

/-- One exported line per original row. -/
theorem exportRowsAux_length (fields : List String) (allD : List RowOut) :
    ∀ (idx : ℕ) (l : List Row), (exportRowsAux fields allD idx l).length = l.length := by
  intro idx l
  induction l generalizing idx with
  | nil => simp [exportRowsAux]
  | cons r rest ih => simp [exportRowsAux, ih]

/-- The exported line at index `i` is built from the original row at index
`i` (and the `allData` entry at the same index). -/
theorem exportRowsAux_get (fields : List String) (allD : List RowOut) :
    ∀ (l : List Row) (idx i : ℕ) (row : Row), l.get? i = some row →
      (exportRowsAux fields allD idx l).get? i
        = some (exportLine fields allD (idx + i) row) := by
  intro l
  induction l with
  | nil => intro idx i row h; simp at h
  | cons r rest ih =>
    intro idx i row h
    cases i with
    | zero =>
      simp only [List.get?_cons_zero, Option.some.injEq] at h
      subst h
      simp [exportRowsAux]
    | succ i =>
      simp only [List.get?_cons_succ] at h
      have hrec := ih (idx + 1) i row h
      have harith : idx + 1 + i = idx + (i + 1) := by omega
      rw [harith] at hrec
      simpa [exportRowsAux] using hrec

/-- C9: counterexample — `Latitude`/`Longitude` are recognized coordinate
aliases (they are in the extractor alias lists), yet the export header check
only recognizes `/^lat$/i` and `/^(lon|lng|long)$/i`, so `Lat` and `Lon`
are appended even though recognized aliases are already present. -/
theorem C9_alias_append_counterexample :
    "Latitude" ∈ latKeys ∧ "Longitude" ∈ lonKeys
    ∧ exportOutFields ["Latitude", "Longitude", "Direccion"]
      = ["Latitude", "Longitude", "Direccion", "Lat", "Lon"]
    ∧ exportOutFields ["Latitude", "Longitude", "Direccion"]
      ≠ ["Latitude", "Longitude", "Direccion"] := by
  exact ⟨by decide, by decide, by decide, by decide⟩

/-- C9 amended: the export emits exactly one line per original row, in the
original order (line `i` is built from original row `i` and the resolved
data at index `i`); cells of fields matching neither coordinate regex keep
the original content; and `Lat`/`Lon` are appended exactly when no original
field matches `/^lat$/i` (resp. `/^(lon|lng|long)$/i`) — the wider extractor
alias list is not consulted. -/
theorem C9_export_shape (fields : List String) (origRows : List Row) (allD : List RowOut) :
    (exportRows fields origRows allD).length = origRows.length
    ∧ (∀ (i : ℕ) (row : Row), origRows.get? i = some row →
        (exportRows fields origRows allD).get? i = some (exportLine fields allD i row))
    ∧ (∀ f : String, latFieldRegex f = false → lonFieldRegex f = false →
        ∀ (row : Row) (r : RowOut), exportCell row r f = CellVal.str (pickField row [f]))
    ∧ exportOutFields fields
      = fields ++ (if fields.any latFieldRegex then [] else ["Lat"])
          ++ (if fields.any lonFieldRegex then [] else ["Lon"]) := by
  refine ⟨exportRowsAux_length fields allD 0 origRows, ?_, ?_, rfl⟩
  · intro i row h
    have hrec := exportRowsAux_get fields allD origRows 0 i row h
    simpa [exportRows] using hrec
  · intro f h1 h2 row r
    simp [exportCell, h1, h2]

/-- C9 witness: the export-shape theorem applied to a one-row table. -/
theorem C9_export_shape_witness :
    (exportRows ["Region", "Direccion"] [[("Region", "1"), ("Direccion", "X")]] []).length
      = ([[("Region", "1"), ("Direccion", "X")]] : List Row).length :=
  (C9_export_shape ["Region", "Direccion"] [[("Region", "1"), ("Direccion", "X")]] []).1

/-! ## C10 -/

/-- C10: the flexible parser replaces only the first comma and then parses
the longest numeric prefix, ignoring trailing text — so any axis value that
is a well-formed numeral followed by non-extending text (such as `12.5 km`,
or `1.234,5`, which becomes `1.234.5` and parses as `1.234`) counts as a
finite coordinate; a row whose two axes are of that shape takes the native
branch and never reaches the resolver. -/
theorem C10_prefix_parse (slat slon : String) (nlat tlat nlon tlon : List Char)
    (hlat : replaceFirstComma (trimList slat.data) = nlat ++ tlat)
    (hlat1 : numeralBody nlat = true) (hlat2 : blockedTailB nlat tlat = true)
    (hlon : replaceFirstComma (trimList slon.data) = nlon ++ tlon)
    (hlon1 : numeralBody nlon = true) (hlon2 : blockedTailB nlon tlon = true) :
    parseNumberFlexible slat = some (numeralVal nlat)
    ∧ getCoordsFromRow [("Lat", slat), ("Lon", slon)]
      = some ⟨numeralVal nlat, numeralVal nlon⟩
    ∧ (∀ (env : GeoEnv) (gs : GeoState),
        (pdResolve env gs [("Lat", slat), ("Lon", slon)]).2.2.1.fetches = gs.fetches) := by
  have hplat : parseNumberFlexible slat = some (numeralVal nlat) := by
    unfold parseNumberFlexible
    rw [hlat]
    exact jsParseFloat_append nlat tlat hlat1 hlat2
  have hplon : parseNumberFlexible slon = some (numeralVal nlon) := by
    unfold parseNumberFlexible
    rw [hlon]
    exact jsParseFloat_append nlon tlon hlon1 hlon2
  have hslatne : slat ≠ "" := by
    intro he
    subst he
    simp [trimList, replaceFirstComma] at hlat
    obtain ⟨h1, h2⟩ := hlat
    subst h1
    simp [numeralBody, spanDigits] at hlat1
  have hslonne : slon ≠ "" := by
    intro he
    subst he
    simp [trimList, replaceFirstComma] at hlon
    obtain ⟨h1, h2⟩ := hlon
    subst h1
    simp [numeralBody, spanDigits] at hlon1
  have h1 : firstAxisVal latKeys [("Lat", slat), ("Lon", slon)] = some slat := by
    simp [firstAxisVal, latKeys, rowGet, hslatne]
  have h2 : firstAxisVal lonKeys [("Lat", slat), ("Lon", slon)] = some slon := by
    simp [firstAxisVal, lonKeys, rowGet, hslonne]
  have hrow : getCoordsFromRow [("Lat", slat), ("Lon", slon)]
      = some ⟨numeralVal nlat, numeralVal nlon⟩ := by
    simp [getCoordsFromRow, h1, h2, hplat, hplon]
  refine ⟨hplat, hrow, ?_⟩
  intro env gs
  exact (pdResolve_native env gs _ _ hrow).2.2.1

/-- C10 witness: the theorem applied at the two claim examples, including a
concrete pipeline step with no fetch. -/
theorem C10_prefix_parse_witness :
    parseNumberFlexible "12.5 km" = some (numeralVal "12.5".data)
    ∧ getCoordsFromRow [("Lat", "12.5 km"), ("Lon", "1.234,5")]
      = some ⟨numeralVal "12.5".data, numeralVal "1.234".data⟩
    ∧ (pdResolve envNoMatch gInit
        [("Lat", "12.5 km"), ("Lon", "1.234,5")]).2.2.1.fetches = gInit.fetches :=
  ⟨(C10_prefix_parse "12.5 km" "1.234,5" "12.5".data " km".data "1.234".data ".5".data
      (by decide) (by decide) (by decide) (by decide) (by decide) (by decide)).1,
   (C10_prefix_parse "12.5 km" "1.234,5" "12.5".data " km".data "1.234".data ".5".data
      (by decide) (by decide) (by decide) (by decide) (by decide) (by decide)).2.1,
   (C10_prefix_parse "12.5 km" "1.234,5" "12.5".data " km".data "1.234".data ".5".data
      (by decide) (by decide) (by decide) (by decide) (by decide) (by decide)).2.2
     envNoMatch gInit⟩

end NIMap
